import Mathlib

/-!
Verification of the AnomalyDetection port (nicolasmiller/AnomalyDetection).

This file shallowly embeds the numerical core of the repository:
the S-H-ESD outlier loop of `detect_anoms.py`, the parameter handling of
`detect_ts.py` / `detect_vec.py`, and the seasonal decomposition of
`decompose.py`.  Floating-point values are modelled as exact rationals;
external numeric routines that the source calls but whose code is not part
of the repository sources (scipy's Student-t quantile `t.ppf`, `math.sqrt`,
the `r_stl.stl` decomposition and `Henderson.Henderson`) are taken as
function parameters, so every definition stays executable once those
parameters are instantiated.
-/

/-- Python `int()` applied to a float: truncation toward zero.
Used for `max_outliers = int(num_obs * k)` in detect_anoms.py line 93. -/
def pyInt (x : ℚ) : ℤ :=
  if 0 ≤ x then ⌊x⌋ else ⌈x⌉

/-- Insert a rational into a sorted list (ascending). -/
def insertAsc (x : ℚ) : List ℚ → List ℚ
  | [] => [x]
  | y :: ys => if x ≤ y then x :: y :: ys else y :: insertAsc x ys

/-- Ascending insertion sort, used to model the order statistics behind
pandas `Series.median()`. -/
def sortAsc (xs : List ℚ) : List ℚ :=
  xs.foldr insertAsc []

/-- pandas `Series.mean()`: sum divided by length (0 on the empty series,
standing in for NaN, which the detect_anoms loop never consumes). -/
def pmean (xs : List ℚ) : ℚ :=
  xs.sum / (xs.length : ℚ)

/-- pandas `Series.median()`: middle order statistic, averaging the two
central values for an even length. -/
def pmedian (xs : List ℚ) : ℚ :=
  let s := sortAsc xs
  if s.length % 2 = 1 then s.getD (s.length / 2) 0
  else (s.getD (s.length / 2 - 1) 0 + s.getD (s.length / 2) 0) / 2

/-- pandas `Series.mad()`: the MEAN absolute deviation about the mean.
This is what `data.iloc[:,0].mad()` computes at detect_anoms.py line 123;
note it is not the median absolute deviation. -/
def pmad (xs : List ℚ) : ℚ :=
  pmean (xs.map (fun x => |x - pmean xs|))

/-- pandas `Series.max()` over a list of values. -/
def pmax (xs : List ℚ) : ℚ :=
  xs.foldl max (xs.headD 0)

/-- The value column of a (timestamp, count) frame. -/
def pvals (data : List (ℤ × ℚ)) : List ℚ :=
  data.map (fun p => p.2)

/-- Number of runs in a run-length encoding, as produced by
`len(map(lambda x: x[0], list(groupby(...))))` in detect_anoms.py line 41. -/
def rleLen : List Bool → ℕ
  | [] => 0
  | [_] => 1
  | a :: b :: rest => (if a = b then 0 else 1) + rleLen (b :: rest)

/-- Number of adjacent sign changes in a boolean sequence (helper for
reasoning about `rleLen`). -/
def rleChanges : List Bool → ℕ
  | a :: b :: rest => (if a = b then 0 else 1) + rleChanges (b :: rest)
  | _ => 0

/-- The null screen of detect_anoms.py lines 41-45: a NaN is prepended and
appended to the isnull pattern of the count column, the runs are counted,
and the call raises when more than 3 runs remain.  `pattern` is the isnull
pattern of the data (true = null). -/
def nullCheckRaises (pattern : List Bool) : Bool :=
  decide (3 < rleLen (true :: pattern ++ [true]))

/-- Claim-side predicate (C5, original wording): the series contains a null
value that is not in the leading run of nulls. -/
def hasNonLeadingNull (pattern : List Bool) : Bool :=
  (pattern.dropWhile (fun b => b)).contains true

/-- Claim-side predicate (C5, amended): some null has a non-null value both
strictly before and strictly after it (an internal null). -/
def HasInternalNull (pattern : List Bool) : Prop :=
  ∃ i j k, i < j ∧ j < k ∧ pattern.get? i = some false ∧
    pattern.get? j = some true ∧ pattern.get? k = some false

/-- The direction table of detect_ts.py lines 202-206:
pos selects (one_tail, upper_tail) = (True, True), neg selects
(True, False), both selects (False, False); any other key raises KeyError
(modelled as `none`). -/
def detect_ts_directions (direction : String) : Option (Bool × Bool) :=
  if direction = "pos" then some (true, true)
  else if direction = "neg" then some (true, false)
  else if direction = "both" then some (false, false)
  else none

/-- The direction table of detect_vec.py lines 98-102.  The Python dict
literal writes the key neg twice and never writes both; in Python the later
duplicate binding wins, so the resulting dict is
pos -> (True, True), neg -> (False, False), and a lookup of both raises
KeyError (modelled as `none`). -/
def detect_vec_directions (direction : String) : Option (Bool × Bool) :=
  if direction = "pos" then some (true, true)
  else if direction = "neg" then some (false, false)
  else none

/-- Caller-visible column names of the input frame after detect_ts runs its
normalisation step (detect_ts.py lines 88-89).  The statement
`df.columns = ["timestamp", "count"]` assigns in place on the caller's
DataFrame object, so the caller's column names are part of the observable
state; this function maps their value before the call to their value after
it. -/
def detect_ts_columns (cols : List String) : List String :=
  if cols ≠ ["timestamp", "count"] then ["timestamp", "count"] else cols

/-- The max_anoms clamp of detect_ts.py lines 163-165 (detect_vec.py lines
73-74 is identical): raise max_anoms to 1/num_obs when it is smaller. -/
def clampMaxAnoms (maxAnoms : ℚ) (numObs : ℕ) : ℚ :=
  if maxAnoms < 1 / (numObs : ℚ) then 1 / (numObs : ℚ) else maxAnoms

/-- The resample-frequency table of detect_anoms.py lines 58-62; any period
other than 1440, 24 or 7 raises KeyError at line 63 (modelled as `none`). -/
def resample_freq (numObsPerPeriod : ℕ) : Option String :=
  if numObsPerPeriod = 1440 then some "T"
  else if numObsPerPeriod = 24 then some "H"
  else if numObsPerPeriod = 7 then some "D"
  else none

/-- Per-iteration statistic of the ESD loop (detect_anoms.py lines 114-131):
the deviation of each remaining point from the current median (one side, the
other side, or absolute, by direction), normalised by `Series.mad()`, with
`R` the maximum normalised deviation and the second component the timestamp
of its first occurrence (`ares[ares == R].index.tolist()[0]`). -/
def iterStat (oneTail upperTail : Bool) (data : List (ℤ × ℚ)) : ℚ × ℤ :=
  let med := pmedian (pvals data)
  let sigma := pmad (pvals data)
  let ares := data.map (fun p =>
    (p.1, (if oneTail then (if upperTail then p.2 - med else med - p.2)
           else |p.2 - med|) / sigma))
  let R := pmax (ares.map (fun p => p.2))
  (R, ((ares.find? (fun p => p.2 = R)).getD (0, 0)).1)

/-- The inner ESD loop of detect_anoms.py lines 110-148, one recursive step
per iteration `i` of `for i in range(1, max_outliers + 1)` (`fuel` is the
number of iterations still to run).  When `Series.mad()` of the remaining
points is 0 the loop breaks (line 124); otherwise the most extreme point is
recorded in `R_idx[i - 1]`, removed from the working frame, and `num_anoms`
is set to `i` when `R > lam` (line 147). -/
def esdGo (lam : ℕ → ℚ) (oneTail upperTail : Bool) :
    ℕ → ℕ → List (ℤ × ℚ) → List ℤ → ℕ → List ℤ × ℕ
  | 0, _, _, Ridx, numAnoms => (Ridx, numAnoms)
  | fuel + 1, i, data, Ridx, numAnoms =>
    if pmad (pvals data) = 0 then (Ridx, numAnoms)
    else
      let s := iterStat oneTail upperTail data
      esdGo lam oneTail upperTail fuel (i + 1)
        (data.filter (fun p => p.1 ≠ s.2))
        (Ridx.set (i - 1) s.2)
        (if lam i < s.1 then i else numAnoms)

/-- detect_anoms.py lines 100-148: `R_idx` starts as `range(max_outliers)`
and the loop runs for `i = 1 .. max_outliers`. -/
def esdLoop (lam : ℕ → ℚ) (oneTail upperTail : Bool) (maxOutliers : ℕ)
    (resid : List (ℤ × ℚ)) : List ℤ × ℕ :=
  esdGo lam oneTail upperTail maxOutliers 1 resid
    ((List.range maxOutliers).map Int.ofNat) 0

/-- detect_anoms.py lines 150-153: keep the first `num_anoms` recorded
candidates; when `num_anoms` is 0 the anoms result is None (modelled as
`none`, the empty result). -/
def esdAnoms (lam : ℕ → ℚ) (oneTail upperTail : Bool) (maxOutliers : ℕ)
    (resid : List (ℤ × ℚ)) : Option (List ℤ) :=
  let r := esdLoop lam oneTail upperTail maxOutliers resid
  if 0 < r.2 then some (r.1.take r.2) else none

/-- The critical value of detect_anoms.py lines 139-145: `p` by tail
configuration, `t = student_t.ppf(p, n - i - 1)` and
`lam = t * (n - i) / sqrt((n - i - 1 + t^2) * (n - i + 1))`.
`tppf` stands for scipy's `student_t.ppf` and `sqrtQ` for `math.sqrt`,
both external floating-point routines. -/
def lamOf (tppf : ℚ → ℤ → ℚ) (sqrtQ : ℚ → ℚ) (alpha : ℚ) (oneTail : Bool)
    (n : ℕ) (i : ℕ) : ℚ :=
  let p := if oneTail then 1 - alpha / ((n : ℚ) - (i : ℚ) + 1)
           else 1 - alpha / (2 * ((n : ℚ) - (i : ℚ) + 1))
  let t := tppf p ((n : ℤ) - (i : ℤ) - 1)
  t * ((n : ℚ) - (i : ℚ)) /
    sqrtQ (((n : ℚ) - (i : ℚ) - 1 + t ^ 2) * ((n : ℚ) - (i : ℚ) + 1))

def periodRequiredMsg : String :=
  "must supply period length for time series decomposition"

def twoPeriodsMsg : String :=
  "Anom detection needs at least 2 periods worth of data"

def nonLeadingNAMsg : String :=
  "Data contains non-leading NAs"

def resampleKeyErrorMsg : String :=
  "KeyError: num_obs_per_period has no resample frequency"

def zeroMaxOutliersMsg : String :=
  "too few observations in a period"

/-- Shallow embedding of `detect_anoms` (detect_anoms.py lines 25-158).
`data` is the raw (timestamp, count) frame, with `none` in the count column
modelling NaN.  `residualOf` stands for lines 55-81 (minute/hour/day
resampling, the `r_stl.stl` call and the seasonal+median subtraction:
`r_stl` is not part of the repository sources, so the residual construction
is a parameter), and `stlOf` for the trend+seasonal frame of lines 83-87.
The guard structure and its order are the source's: missing period, fewer
than two periods of data, non-leading NAs, the resample-frequency lookup,
and a zero `max_outliers = int(num_obs * k)` each raise; otherwise the ESD
loop runs on the residual with `n` its length. -/
def detect_anoms (tppf : ℚ → ℤ → ℚ) (sqrtQ : ℚ → ℚ)
    (residualOf stlOf : List (ℤ × ℚ) → List (ℤ × ℚ))
    (data : List (ℤ × Option ℚ)) (k alpha : ℚ)
    (numObsPerPeriod : Option ℕ) (oneTail upperTail : Bool) :
    Except String (Option (List ℤ) × List (ℤ × ℚ)) :=
  match numObsPerPeriod with
  | none => .error periodRequiredMsg
  | some period =>
    let numObs := data.length
    if numObs < period * 2 then .error twoPeriodsMsg
    else if nullCheckRaises (data.map (fun p => p.2.isNone)) then
      .error nonLeadingNAMsg
    else
      let cleaned := data.filterMap (fun p => p.2.map (fun v => (p.1, v)))
      match resample_freq period with
      | none => .error resampleKeyErrorMsg
      | some _ =>
        let resid := residualOf cleaned
        let dataDecomp := stlOf cleaned
        let maxOutliers := pyInt ((numObs : ℚ) * k)
        if maxOutliers = 0 then .error zeroMaxOutliersMsg
        else
          .ok (esdAnoms (lamOf tppf sqrtQ alpha oneTail resid.length)
                 oneTail upperTail maxOutliers.toNat resid, dataDecomp)

/-- Number of anomalies in a returned anoms field (None counts 0). -/
def anomCount : Option (List ℤ) → ℕ
  | none => 0
  | some l => l.length

/-- Whether an Except result is a success. -/
def exceptIsOk {α : Type} (e : Except String α) : Bool :=
  match e with
  | .ok _ => true
  | .error _ => false

/-- Claim-side median absolute deviation (C4's wording; the glossary of the
spec defines MAD as the median absolute deviation): the median of the
absolute deviations from the median. -/
def medianAbsDev (xs : List ℚ) : ℚ :=
  pmedian (xs.map (fun x => |x - pmedian xs|))

/-- Claim-side critical value (C1's wording): lambda =
t*(n-i)/sqrt((n-i-1+t^2)*(n-i+1)) where t is the Student-t quantile at
p = 1 - alpha/(n-i+1) (one-tailed) or p = 1 - alpha/(2*(n-i+1))
(two-tailed) with n-i-1 degrees of freedom. -/
def lamSpec (tppf : ℚ → ℤ → ℚ) (sqrtQ : ℚ → ℚ) (alpha : ℚ) (oneTail : Bool)
    (n : ℕ) (i : ℕ) : ℚ :=
  let p := if oneTail then 1 - alpha / ((n : ℚ) - (i : ℚ) + 1)
           else 1 - alpha / (2 * ((n : ℚ) - (i : ℚ) + 1))
  tppf p ((n : ℤ) - (i : ℤ) - 1) * ((n : ℚ) - (i : ℚ)) /
    sqrtQ (((n : ℚ) - (i : ℚ) - 1 + tppf p ((n : ℤ) - (i : ℤ) - 1) ^ 2) *
      ((n : ℚ) - (i : ℚ) + 1))

/-- Claim-side rendering of the ESD search (C1's narrative): starting at
iteration `i`, stop on a zero MAD, otherwise record the most extreme
candidate, remove it regardless of acceptance, and continue; the second
component is the last iteration index at which the test `R > lambda`
passed (0 when no iteration ever passed). -/
def specGo (lam : ℕ → ℚ) (oneTail upperTail : Bool) :
    ℕ → ℕ → List (ℤ × ℚ) → List ℤ × ℕ
  | 0, _, _ => ([], 0)
  | fuel + 1, i, data =>
    if pmad (pvals data) = 0 then ([], 0)
    else
      let s := iterStat oneTail upperTail data
      let rest := specGo lam oneTail upperTail fuel (i + 1)
        (data.filter (fun p => p.1 ≠ s.2))
      (s.2 :: rest.1,
       if rest.2 ≠ 0 then rest.2 else if lam i < s.1 then i else 0)

/-- Claim-side final result (C1's narrative): the first `num_anoms`
candidates in detection order, where `num_anoms` is the last iteration at
which the test passed; empty (None) if no iteration ever passed. -/
def specESD (lam : ℕ → ℚ) (oneTail upperTail : Bool) (maxOutliers : ℕ)
    (resid : List (ℤ × ℚ)) : Option (List ℤ) :=
  let r := specGo lam oneTail upperTail maxOutliers 1 resid
  if r.2 = 0 then none else some (r.1.take r.2)

/-- Write a block of values into a list starting at a position, one
`List.set` per element (how the loop's `R_idx[i-1] = ...` assignments
accumulate). -/
def setSeq (l : List ℤ) (pos : ℕ) : List ℤ → List ℤ
  | [] => l
  | c :: cs => setSeq (l.set pos c) (pos + 1) cs

lemma setSeq_length (cs : List ℤ) : ∀ (l : List ℤ) (pos : ℕ),
    (setSeq l pos cs).length = l.length := by
  induction cs with
  | nil => intro l pos; rfl
  | cons c cs ih => intro l pos; simp [setSeq, ih]

lemma take_set_of_lt (c : ℤ) : ∀ (l : List ℤ) (pos : ℕ), pos < l.length →
    (l.set pos c).take (pos + 1) = l.take pos ++ [c] := by
  intro l
  induction l with
  | nil => intro pos h; simp at h
  | cons a l ih =>
    intro pos h
    cases pos with
    | zero => simp
    | succ p =>
      simp only [List.set, List.take, List.cons_append]
      rw [ih p (by simpa using h)]

lemma drop_set_of_lt (c : ℤ) : ∀ (l : List ℤ) (pos k : ℕ), pos < k →
    (l.set pos c).drop k = l.drop k := by
  intro l
  induction l with
  | nil => intro pos k _; simp
  | cons a l ih =>
    intro pos k hpk
    cases pos with
    | zero =>
      cases k with
      | zero => omega
      | succ k => simp
    | succ p =>
      cases k with
      | zero => omega
      | succ k =>
        simp only [List.set, List.drop]
        exact ih p k (by omega)

lemma setSeq_eq_append (cs : List ℤ) : ∀ (l : List ℤ) (pos : ℕ),
    pos + cs.length ≤ l.length →
    setSeq l pos cs = l.take pos ++ cs ++ l.drop (pos + cs.length) := by
  induction cs with
  | nil => intro l pos _; simp [setSeq]
  | cons c cs ih =>
    intro l pos h
    have hpos : pos < l.length := by simp at h; omega
    have hlen : (l.set pos c).length = l.length := by simp
    simp only [setSeq]
    rw [ih (l.set pos c) (pos + 1) (by simp only [hlen]; simp at h ⊢; omega)]
    rw [take_set_of_lt c l pos hpos, drop_set_of_lt c l pos (pos + 1 + cs.length) (by omega)]
    simp only [List.length_cons]
    have : pos + (cs.length + 1) = pos + 1 + cs.length := by omega
    rw [this]
    simp

lemma specGo_length_le (lam : ℕ → ℚ) (ot ut : Bool) : ∀ (fuel i : ℕ)
    (d : List (ℤ × ℚ)), (specGo lam ot ut fuel i d).1.length ≤ fuel := by
  intro fuel
  induction fuel with
  | zero => intro i d; simp [specGo]
  | succ fuel ih =>
    intro i d
    simp only [specGo]
    split
    · simp
    · simpa using ih (i + 1) _

lemma specGo_numAnoms_bounds (lam : ℕ → ℚ) (ot ut : Bool) : ∀ (fuel i : ℕ)
    (d : List (ℤ × ℚ)),
    (specGo lam ot ut fuel i d).2 = 0 ∨
      (i ≤ (specGo lam ot ut fuel i d).2 ∧
       (specGo lam ot ut fuel i d).2 ≤ (i - 1) + (specGo lam ot ut fuel i d).1.length) := by
  intro fuel
  induction fuel with
  | zero => intro i d; left; rfl
  | succ fuel ih =>
    intro i d
    simp only [specGo]
    split
    · left; rfl
    · rcases ih (i + 1) (d.filter (fun p => p.1 ≠ (iterStat ot ut d).2)) with h0 | ⟨hlo, hhi⟩
      · simp only [h0]
        by_cases hp : lam i < (iterStat ot ut d).1
        · right
          simp only [if_neg (by omega : ¬ (0 : ℕ) ≠ 0), if_pos hp, List.length_cons]
          omega
        · left
          simp only [if_neg (by omega : ¬ (0 : ℕ) ≠ 0), if_neg hp]
      · right
        have hne : (specGo lam ot ut fuel (i + 1) (d.filter (fun p => p.1 ≠ (iterStat ot ut d).2))).2 ≠ 0 := by omega
        simp only [if_pos hne, List.length_cons]
        omega

lemma specGo_numAnoms_mono (lam : ℕ → ℚ) (ot ut : Bool) : ∀ (fuel₁ fuel₂ i : ℕ)
    (d : List (ℤ × ℚ)), fuel₁ ≤ fuel₂ →
    (specGo lam ot ut fuel₁ i d).2 ≤ (specGo lam ot ut fuel₂ i d).2 := by
  intro fuel₁
  induction fuel₁ with
  | zero => intro fuel₂ i d _; simp [specGo]
  | succ fuel₁ ih =>
    intro fuel₂ i d hle
    cases fuel₂ with
    | zero => omega
    | succ fuel₂ =>
      simp only [specGo]
      split
      · exact le_refl _
      · set d' := d.filter (fun p => p.1 ≠ (iterStat ot ut d).2) with hd'
        have hrec := ih fuel₂ (i + 1) d' (by omega)
        rcases specGo_numAnoms_bounds lam ot ut fuel₁ (i + 1) d' with h10 | ⟨h1lo, _⟩
        · simp only [h10]
          simp only [if_neg (by omega : ¬ (0 : ℕ) ≠ 0)]
          rcases specGo_numAnoms_bounds lam ot ut fuel₂ (i + 1) d' with h20 | ⟨h2lo, _⟩
          · simp only [h20, if_neg (by omega : ¬ (0 : ℕ) ≠ 0)]
            exact le_refl _
          · have h2ne : (specGo lam ot ut fuel₂ (i + 1) d').2 ≠ 0 := by omega
            simp only [if_pos h2ne]
            split <;> omega
        · have h1ne : (specGo lam ot ut fuel₁ (i + 1) d').2 ≠ 0 := by omega
          have h2ne : (specGo lam ot ut fuel₂ (i + 1) d').2 ≠ 0 := by omega
          simp only [if_pos h1ne, if_pos h2ne]
          exact hrec

lemma esdGo_eq_specGo (lam : ℕ → ℚ) (ot ut : Bool) : ∀ (fuel i : ℕ)
    (d : List (ℤ × ℚ)) (Ridx : List ℤ) (na : ℕ), 1 ≤ i →
    esdGo lam ot ut fuel i d Ridx na =
      (setSeq Ridx (i - 1) (specGo lam ot ut fuel i d).1,
       if (specGo lam ot ut fuel i d).2 = 0 then na
       else (specGo lam ot ut fuel i d).2) := by
  intro fuel
  induction fuel with
  | zero => intro i d Ridx na _; simp [esdGo, specGo, setSeq]
  | succ fuel ih =>
    intro i d Ridx na hi
    simp only [esdGo, specGo]
    split
    · simp [setSeq]
    · set s := iterStat ot ut d with hs
      set d' := d.filter (fun p => p.1 ≠ s.2) with hd'
      rw [ih (i + 1) d' (Ridx.set (i - 1) s.2) (if lam i < s.1 then i else na) (by omega)]
      have hstep : setSeq Ridx (i - 1) (s.2 :: (specGo lam ot ut fuel (i + 1) d').1) =
          setSeq (Ridx.set (i - 1) s.2) (i - 1 + 1) (specGo lam ot ut fuel (i + 1) d').1 := by
        simp [setSeq]
      have hi1 : i - 1 + 1 = i := by omega
      rw [hi1] at hstep
      dsimp only
      rw [Nat.add_sub_cancel, ← hstep]
      congr 1
      rcases specGo_numAnoms_bounds lam ot ut fuel (i + 1) d' with h0 | ⟨hlo, _⟩
      · by_cases hp : lam i < s.1
        · simp [h0, hp, show i ≠ 0 by omega]
        · simp [h0, hp]
      · have hne : (specGo lam ot ut fuel (i + 1) d').2 ≠ 0 := by omega
        simp [hne]

lemma esdAnoms_eq_specESD (lam : ℕ → ℚ) (ot ut : Bool) (m : ℕ)
    (resid : List (ℤ × ℚ)) :
    esdAnoms lam ot ut m resid = specESD lam ot ut m resid := by
  unfold esdAnoms esdLoop specESD
  rw [esdGo_eq_specGo lam ot ut m 1 resid _ 0 (le_refl 1)]
  rcases specGo_numAnoms_bounds lam ot ut m 1 resid with h0 | ⟨hlo, hhi⟩
  · simp [h0]
  · have hne : (specGo lam ot ut m 1 resid).2 ≠ 0 := by omega
    simp only [if_neg hne, if_pos (by omega : 0 < (specGo lam ot ut m 1 resid).2)]
    have hlen : (specGo lam ot ut m 1 resid).1.length ≤ m :=
      specGo_length_le lam ot ut m 1 resid
    have hr : ((List.range m).map Int.ofNat).length = m := by simp
    rw [setSeq_eq_append _ _ 0 (by simp only [hr, Nat.zero_add]; omega)]
    simp only [List.take_zero, List.nil_append, Nat.zero_add]
    rw [List.take_append_of_le_length (by omega : (specGo lam ot ut m 1 resid).2 ≤ (specGo lam ot ut m 1 resid).1.length)]

lemma anomCount_esdAnoms (lam : ℕ → ℚ) (ot ut : Bool) (m : ℕ)
    (resid : List (ℤ × ℚ)) :
    anomCount (esdAnoms lam ot ut m resid) = (specGo lam ot ut m 1 resid).2 := by
  rw [esdAnoms_eq_specESD]
  unfold specESD
  rcases specGo_numAnoms_bounds lam ot ut m 1 resid with h0 | ⟨hlo, hhi⟩
  · simp [h0, anomCount]
  · have hne : (specGo lam ot ut m 1 resid).2 ≠ 0 := by omega
    simp only [if_neg hne, anomCount, List.length_take]
    omega

lemma anomCount_esdAnoms_le (lam : ℕ → ℚ) (ot ut : Bool) (m : ℕ)
    (resid : List (ℤ × ℚ)) :
    anomCount (esdAnoms lam ot ut m resid) ≤ m := by
  rw [anomCount_esdAnoms]
  rcases specGo_numAnoms_bounds lam ot ut m 1 resid with h0 | ⟨_, hhi⟩
  · omega
  · have := specGo_length_le lam ot ut m 1 resid
    omega

lemma pyInt_mono {x y : ℚ} (h : x ≤ y) : pyInt x ≤ pyInt y := by
  unfold pyInt
  by_cases hx : 0 ≤ x
  · rw [if_pos hx, if_pos (le_trans hx h)]
    exact Int.floor_le_floor h
  · rw [if_neg hx]
    by_cases hy : 0 ≤ y
    · rw [if_pos hy]
      calc ⌈x⌉ ≤ 0 := Int.ceil_le.mpr (by exact_mod_cast le_of_not_le hx)
        _ ≤ ⌊y⌋ := Int.floor_nonneg.mpr hy
    · rw [if_neg hy]
      exact Int.ceil_le_ceil h

/-- C1: for every residual series of length n, the ESD search of
detect_anoms (lines 110-153) refines the generalized-ESD description: the
critical value at iteration i is t*(n-i)/sqrt((n-i-1+t^2)*(n-i+1)) with t
the Student-t quantile at p = 1 - alpha/(n-i+1) (one-tailed) or
1 - alpha/(2*(n-i+1)) (two-tailed) and n-i-1 degrees of freedom
(`lamSpec`); the most extreme candidate is removed every iteration
regardless of acceptance, the accepted count becomes i whenever R > lambda,
and the result is the first num_anoms candidates in detection order, where
num_anoms is the last iteration at which the test passed, or the empty
(None) result when no iteration ever passed (`specESD`). -/
theorem detect_anoms_esd_refines_spec (tppf : ℚ → ℤ → ℚ) (sqrtQ : ℚ → ℚ)
    (alpha : ℚ) (oneTail upperTail : Bool) (maxOutliers : ℕ)
    (resid : List (ℤ × ℚ)) :
    esdAnoms (lamOf tppf sqrtQ alpha oneTail resid.length) oneTail upperTail
        maxOutliers resid =
      specESD (lamSpec tppf sqrtQ alpha oneTail resid.length) oneTail upperTail
        maxOutliers resid := by
  have h : lamOf tppf sqrtQ alpha oneTail resid.length =
      lamSpec tppf sqrtQ alpha oneTail resid.length := rfl
  rw [h, esdAnoms_eq_specESD]

/-- C3: in detect_ts the direction mapping is total and bijective on
pos/neg/both exactly as claimed; in detect_vec the dict literal binds neg
twice and never binds both, so neg receives the two-tailed configuration
(False, False) and both raises KeyError.  The last two conjuncts exhibit
the divergence from the claim at the concrete inputs "both" and "neg". -/
theorem direction_mapping_ts_ok_vec_broken :
    detect_ts_directions "pos" = some (true, true) ∧
    detect_ts_directions "neg" = some (true, false) ∧
    detect_ts_directions "both" = some (false, false) ∧
    detect_vec_directions "both" = none ∧
    detect_vec_directions "neg" = some (false, false) := by
  refine ⟨rfl, rfl, rfl, rfl, rfl⟩

/-- C9 counterexample: calling detect_ts on a frame whose columns are not
already named timestamp, count renames the caller's columns in place
(detect_ts.py lines 88-89), so the caller-supplied frame is changed. -/
theorem detect_ts_mutates_caller_columns :
    detect_ts_columns ["ts", "value"] ≠ ["ts", "value"] := by
  decide

/-- C9 amended: after detect_ts the caller's columns are always
["timestamp", "count"]; the caller's frame is left unchanged exactly when
its columns already carried those names.  (Decompose and detect_vec build
fresh frames and leave the caller's series untouched; detect_ts is the one
entry point that writes into the caller's object.) -/
theorem detect_ts_columns_after (cols : List String) :
    detect_ts_columns cols = ["timestamp", "count"] ∧
    (detect_ts_columns cols = cols ↔ cols = ["timestamp", "count"]) := by
  unfold detect_ts_columns
  by_cases h : cols = ["timestamp", "count"]
  · simp [h]
  · rw [if_pos h]
    exact ⟨rfl, ⟨fun heq => heq.symm, fun heq => absurd heq h⟩⟩

lemma pmean_replicate (n : ℕ) (c : ℚ) (h : n ≠ 0) :
    pmean (List.replicate n c) = c := by
  unfold pmean
  rw [List.sum_replicate, List.length_replicate, nsmul_eq_mul]
  exact mul_div_cancel_left₀ c (by exact_mod_cast h)

lemma pmad_replicate (n : ℕ) (c : ℚ) : pmad (List.replicate n c) = 0 := by
  unfold pmad
  rcases Nat.eq_zero_or_pos n with h | h
  · subst h; simp [pmean]
  · rw [pmean_replicate n c (by omega), List.map_replicate]
    rw [show |c - c| = 0 by simp]
    rw [pmean_replicate n 0 (by omega)]

lemma pvals_map_const (ts : List ℤ) (c : ℚ) :
    pvals (ts.map (fun t => (t, c))) = List.replicate ts.length c := by
  induction ts with
  | nil => rfl
  | cons t ts ih =>
    simp only [List.map_cons, pvals, List.length_cons, List.replicate_succ]
    simp only [pvals] at ih
    rw [ih]

/-- C4 counterexample: on the residual (0,0),(1,0),(2,0),(3,9) the median
absolute deviation at the first ESD iteration is exactly 0, yet the search
does not stop there: detect_anoms's loop (which tests pandas `Series.mad()`,
the MEAN absolute deviation, 27/8 here) runs the iteration, accepts the
point with timestamp 3, and returns it.  The Student-t quantile and square
root are instantiated with rational stand-ins near scipy's values for
alpha = 1/20, n = 4, i = 1 (t about 6.2, sqrt about 12.7); the claim
predicts an immediate stop with zero accepted anomalies whatever the
critical value is. -/
theorem esd_continues_past_zero_median_abs_dev :
    medianAbsDev (pvals [((0 : ℤ), (0 : ℚ)), (1, 0), (2, 0), (3, 9)]) = 0 ∧
    esdAnoms (lamOf (fun _ _ => 31/5) (fun _ => 127/10) (1/20) true 4)
        true true 2 [((0 : ℤ), (0 : ℚ)), (1, 0), (2, 0), (3, 9)] =
      some [3] := by
  constructor
  · norm_num [medianAbsDev, pmedian, pvals, sortAsc, insertAsc,
      abs_of_nonneg, abs_of_nonpos]
  · norm_num [esdAnoms, esdLoop, esdGo, iterStat, lamOf, pvals, pmedian,
      pmad, pmean, pmax, sortAsc, insertAsc,
      abs_of_nonneg, abs_of_nonpos, List.range, List.range.loop]

/-- C4 amended: the stop test of detect_anoms.py lines 122-125 uses pandas
`Series.mad()`, the MEAN absolute deviation of the remaining points.  When
that quantity is 0 at any iteration, the loop returns immediately, without
raising, with whatever was already accepted; in particular a residual with
all values equal (so every series of zero variance) yields zero anomalies
regardless of direction, significance and cap. -/
theorem esd_stops_on_zero_mean_abs_dev :
    (∀ (lam : ℕ → ℚ) (ot ut : Bool) (fuel i : ℕ) (data : List (ℤ × ℚ))
        (Ridx : List ℤ) (na : ℕ), pmad (pvals data) = 0 →
        esdGo lam ot ut (fuel + 1) i data Ridx na = (Ridx, na)) ∧
    (∀ (lam : ℕ → ℚ) (ot ut : Bool) (m : ℕ) (ts : List ℤ) (c : ℚ),
        esdAnoms lam ot ut m (ts.map (fun t => (t, c))) = none) := by
  constructor
  · intro lam ot ut fuel i data Ridx na h
    simp [esdGo, h]
  · intro lam ot ut m ts c
    unfold esdAnoms esdLoop
    cases m with
    | zero => rfl
    | succ m =>
      have h : pmad (pvals (ts.map (fun t => (t, c)))) = 0 := by
        rw [pvals_map_const]; exact pmad_replicate _ _
      simp [esdGo, h]

/-- C4 amended, witness: a two-point constant frame with one loop iteration
available returns the accumulator unchanged. -/
theorem esd_stops_on_zero_mean_abs_dev_witness :
    esdGo (fun _ => 0) true true 1 1 [((0 : ℤ), (5 : ℚ)), (1, 5)] [9] 0 =
      ([9], 0) :=
  esd_stops_on_zero_mean_abs_dev.1 (fun _ => 0) true true 0 1
    [((0 : ℤ), (5 : ℚ)), (1, 5)] [9] 0
    (by norm_num [pmad, pmean, pvals, abs_of_nonneg, abs_of_nonpos])

/-- C7: whenever detect_anoms succeeds, the number of anomalies it returns
is at most `int(num_obs * k)`, the floor of the series length times the
max_anoms fraction (detect_anoms.py lines 93 and 110-153). -/
theorem detect_anoms_count_bounded (tppf : ℚ → ℤ → ℚ) (sqrtQ : ℚ → ℚ)
    (residualOf stlOf : List (ℤ × ℚ) → List (ℤ × ℚ))
    (data : List (ℤ × Option ℚ)) (k alpha : ℚ) (pOpt : Option ℕ)
    (ot ut : Bool) (out : Option (List ℤ) × List (ℤ × ℚ))
    (h : detect_anoms tppf sqrtQ residualOf stlOf data k alpha pOpt ot ut =
      .ok out) :
    anomCount out.1 ≤ (pyInt ((data.length : ℚ) * k)).toNat := by
  cases pOpt with
  | none => simp [detect_anoms] at h
  | some period =>
    simp only [detect_anoms] at h
    split at h
    · exact Except.noConfusion h
    · split at h
      · exact Except.noConfusion h
      · split at h
        · exact Except.noConfusion h
        · split at h
          · exact Except.noConfusion h
          · rw [Except.ok.injEq] at h
            subst h
            exact anomCount_esdAnoms_le _ _ _ _ _

/-- C7 witness: a 14-point constant minute-of-week series with period 7 and
k = 1/14 succeeds and returns no anomalies, within the cap of 1. -/
theorem detect_anoms_count_bounded_witness :
    anomCount (none : Option (List ℤ)) ≤
      (pyInt ((([((0 : ℤ), some (0 : ℚ)), (1, some 0), (2, some 0),
          (3, some 0), (4, some 0), (5, some 0), (6, some 0), (7, some 0),
          (8, some 0), (9, some 0), (10, some 0), (11, some 0),
          (12, some 0), (13, some 0)].length : ℕ) : ℚ) * (1/14))).toNat :=
  detect_anoms_count_bounded (fun _ _ => 0) (fun _ => 0)
    (fun _ => []) (fun _ => [])
    [((0 : ℤ), some (0 : ℚ)), (1, some 0), (2, some 0), (3, some 0),
      (4, some 0), (5, some 0), (6, some 0), (7, some 0), (8, some 0),
      (9, some 0), (10, some 0), (11, some 0), (12, some 0), (13, some 0)]
    (1/14) (1/20) (some 7) true true (none, [])
    (by norm_num [detect_anoms, nullCheckRaises, rleLen, resample_freq,
      pyInt, esdAnoms, esdLoop, esdGo, pmad, pmean, pvals])

/-- C8: with the residual series, significance, direction and period fixed,
a larger max_anoms fraction (hence a larger cap `int(num_obs * k)`) never
yields fewer accepted anomalies (detect_anoms.py lines 93 and 110-151). -/
theorem detect_anoms_cap_monotone (tppf : ℚ → ℤ → ℚ) (sqrtQ : ℚ → ℚ)
    (alpha : ℚ) (ot ut : Bool) (resid : List (ℤ × ℚ)) (numObs : ℕ)
    (k₁ k₂ : ℚ) (h : k₁ ≤ k₂) :
    anomCount (esdAnoms (lamOf tppf sqrtQ alpha ot resid.length) ot ut
        (pyInt ((numObs : ℚ) * k₁)).toNat resid) ≤
      anomCount (esdAnoms (lamOf tppf sqrtQ alpha ot resid.length) ot ut
        (pyInt ((numObs : ℚ) * k₂)).toNat resid) := by
  have hp : pyInt ((numObs : ℚ) * k₁) ≤ pyInt ((numObs : ℚ) * k₂) :=
    pyInt_mono (mul_le_mul_of_nonneg_left h (Nat.cast_nonneg numObs))
  have hm : (pyInt ((numObs : ℚ) * k₁)).toNat ≤
      (pyInt ((numObs : ℚ) * k₂)).toNat := by omega
  rw [anomCount_esdAnoms, anomCount_esdAnoms]
  exact specGo_numAnoms_mono _ _ _ _ _ 1 resid hm

/-- C8 witness: on a one-point residual with caps from fractions 1/4 and
1/2 of four observations, the counts obey the bound. -/
theorem detect_anoms_cap_monotone_witness :
    anomCount (esdAnoms (lamOf (fun _ _ => 0) (fun _ => 1) (1/20) true
        [((0 : ℤ), (1 : ℚ))].length) true true
        (pyInt (((4 : ℕ) : ℚ) * (1/4))).toNat [((0 : ℤ), (1 : ℚ))]) ≤
      anomCount (esdAnoms (lamOf (fun _ _ => 0) (fun _ => 1) (1/20) true
        [((0 : ℤ), (1 : ℚ))].length) true true
        (pyInt (((4 : ℕ) : ℚ) * (1/2))).toNat [((0 : ℤ), (1 : ℚ))]) :=
  detect_anoms_cap_monotone (fun _ _ => 0) (fun _ => 1) (1/20) true true
    [((0 : ℤ), (1 : ℚ))] 4 (1/4) (1/2) (by norm_num)

/-- C10: detect_anoms can succeed only when num_obs_per_period is 1440, 24
or 7: for any other period the resample-frequency lookup of
detect_anoms.py line 63 has no key, so the call raises (here: is not ok)
before any outlier testing, whatever the data and remaining parameters. -/
theorem detect_anoms_period_lookup_guard (tppf : ℚ → ℤ → ℚ) (sqrtQ : ℚ → ℚ)
    (residualOf stlOf : List (ℤ × ℚ) → List (ℤ × ℚ))
    (data : List (ℤ × Option ℚ)) (k alpha : ℚ) (ot ut : Bool) (period : ℕ)
    (h1 : period ≠ 1440) (h2 : period ≠ 24) (h3 : period ≠ 7) :
    exceptIsOk (detect_anoms tppf sqrtQ residualOf stlOf data k alpha
      (some period) ot ut) = false := by
  have hfreq : resample_freq period = none := by
    simp [resample_freq, h1, h2, h3]
  simp only [detect_anoms]
  split
  · rfl
  · split
    · rfl
    · rw [hfreq]
      rfl

/-- C10 witness: period 5 is rejected. -/
theorem detect_anoms_period_lookup_guard_witness :
    exceptIsOk (detect_anoms (fun _ _ => 0) (fun _ => 0) id id [] 0 0
      (some 5) true true) = false :=
  detect_anoms_period_lookup_guard (fun _ _ => 0) (fun _ => 0) id id [] 0 0
    true true 5 (by decide) (by decide) (by decide)

/-- C6: after the orchestrator clamp of detect_ts.py lines 163-165, the
cap `int(N * max_anoms)` is at least 1 for every series length N at least
1, and the zero-cap branch of detect_anoms.py lines 95-96 can never fire
for a call whose data has that length (the single-window path passes the
whole frame, so detect_anoms sees the same N the clamp used). -/
theorem clamp_makes_cap_positive (k : ℚ) (N : ℕ) (hN : 1 ≤ N) :
    1 ≤ pyInt ((N : ℚ) * clampMaxAnoms k N) ∧
    ∀ (tppf : ℚ → ℤ → ℚ) (sqrtQ : ℚ → ℚ)
      (residualOf stlOf : List (ℤ × ℚ) → List (ℤ × ℚ))
      (data : List (ℤ × Option ℚ)) (alpha : ℚ) (pOpt : Option ℕ)
      (ot ut : Bool), data.length = N →
      detect_anoms tppf sqrtQ residualOf stlOf data (clampMaxAnoms k N)
          alpha pOpt ot ut ≠ .error zeroMaxOutliersMsg := by
  have hclamp : 1 / (N : ℚ) ≤ clampMaxAnoms k N := by
    unfold clampMaxAnoms
    split
    · exact le_refl _
    · exact le_of_not_lt (by assumption)
  have hNpos : (0 : ℚ) < (N : ℚ) := by exact_mod_cast hN
  have h1 : (1 : ℚ) ≤ (N : ℚ) * clampMaxAnoms k N := by
    calc (1 : ℚ) = (N : ℚ) * (1 / (N : ℚ)) := by field_simp
    _ ≤ (N : ℚ) * clampMaxAnoms k N :=
      mul_le_mul_of_nonneg_left hclamp (le_of_lt hNpos)
  have hcap : 1 ≤ pyInt ((N : ℚ) * clampMaxAnoms k N) := by
    unfold pyInt
    rw [if_pos (le_trans zero_le_one h1)]
    exact Int.le_floor.mpr (by exact_mod_cast h1)
  refine ⟨hcap, ?_⟩
  intro tppf sqrtQ residualOf stlOf data alpha pOpt ot ut hlen
  subst hlen
  cases pOpt with
  | none =>
    intro hc
    simp only [detect_anoms] at hc
    exact absurd (Except.error.inj hc) (by decide)
  | some period =>
    intro hc
    simp only [detect_anoms] at hc
    split at hc
    · exact absurd (Except.error.inj hc) (by decide)
    · split at hc
      · exact absurd (Except.error.inj hc) (by decide)
      · split at hc
        · exact absurd (Except.error.inj hc) (by decide)
        · split at hc
          · omega
          · exact Except.noConfusion hc

/-- C6 witness: at N = 14, k = 0, the clamped cap is 1. -/
theorem clamp_makes_cap_positive_witness :
    1 ≤ pyInt (((14 : ℕ) : ℚ) * clampMaxAnoms 0 14) :=
  (clamp_makes_cap_positive 0 14 (by decide)).1


lemma rleChanges_tt (l : List Bool) :
    rleChanges (true :: true :: l) = rleChanges (true :: l) := by
  show (if (true = true) then 0 else 1) + rleChanges (true :: l) = _
  rw [if_pos rfl, Nat.zero_add]

lemma rleChanges_ff (l : List Bool) :
    rleChanges (false :: false :: l) = rleChanges (false :: l) := by
  show (if (false = false) then 0 else 1) + rleChanges (false :: l) = _
  rw [if_pos rfl, Nat.zero_add]

lemma rleChanges_tf (l : List Bool) :
    rleChanges (true :: false :: l) = 1 + rleChanges (false :: l) := by
  show (if (true = false) then 0 else 1) + rleChanges (false :: l) = _
  rw [if_neg (by decide)]

lemma rleChanges_ft (l : List Bool) :
    rleChanges (false :: true :: l) = 1 + rleChanges (true :: l) := by
  show (if (false = true) then 0 else 1) + rleChanges (true :: l) = _
  rw [if_neg (by decide)]

lemma rleLen_cons_eq (a : Bool) (l : List Bool) :
    rleLen (a :: l) = 1 + rleChanges (a :: l) := by
  induction l generalizing a with
  | nil => rfl
  | cons b l ih =>
    show (if a = b then 0 else 1) + rleLen (b :: l) =
      1 + ((if a = b then 0 else 1) + rleChanges (b :: l))
    rw [ih b]
    omega

lemma qtf_cons_true (p : List Bool) :
    (∃ j k, j < k ∧ (true :: p).get? j = some true ∧
        (true :: p).get? k = some false) ↔ false ∈ p := by
  constructor
  · rintro ⟨j, k, hjk, hj, hk⟩
    cases k with
    | zero => simp at hk
    | succ k =>
      rw [List.get?_cons_succ] at hk
      exact List.get?_mem hk
  · intro hmem
    obtain ⟨k, hk⟩ := List.mem_iff_get?.mp hmem
    exact ⟨0, k + 1, by omega, rfl, by simpa using hk⟩

lemma qtf_cons_false (p : List Bool) :
    (∃ j k, j < k ∧ (false :: p).get? j = some true ∧
        (false :: p).get? k = some false) ↔
      (∃ j k, j < k ∧ p.get? j = some true ∧ p.get? k = some false) := by
  constructor
  · rintro ⟨j, k, hjk, hj, hk⟩
    cases j with
    | zero => simp at hj
    | succ j =>
      cases k with
      | zero => omega
      | succ k =>
        exact ⟨j, k, by omega, by simpa using hj, by simpa using hk⟩
  · rintro ⟨j, k, hjk, hj, hk⟩
    exact ⟨j + 1, k + 1, by omega, by simpa using hj, by simpa using hk⟩

lemma internal_cons_true (p : List Bool) :
    HasInternalNull (true :: p) ↔ HasInternalNull p := by
  unfold HasInternalNull
  constructor
  · rintro ⟨i, j, k, hij, hjk, hi, hj, hk⟩
    cases i with
    | zero => simp at hi
    | succ i =>
      cases j with
      | zero => omega
      | succ j =>
        cases k with
        | zero => omega
        | succ k =>
          exact ⟨i, j, k, by omega, by omega, by simpa using hi,
            by simpa using hj, by simpa using hk⟩
  · rintro ⟨i, j, k, hij, hjk, hi, hj, hk⟩
    exact ⟨i + 1, j + 1, k + 1, by omega, by omega, by simpa using hi,
      by simpa using hj, by simpa using hk⟩

lemma internal_cons_false (p : List Bool) :
    HasInternalNull (false :: p) ↔
      (∃ j k, j < k ∧ p.get? j = some true ∧ p.get? k = some false) := by
  unfold HasInternalNull
  constructor
  · rintro ⟨i, j, k, hij, hjk, hi, hj, hk⟩
    cases j with
    | zero => omega
    | succ j =>
      cases k with
      | zero => omega
      | succ k =>
        exact ⟨j, k, by omega, by simpa using hj, by simpa using hk⟩
  · rintro ⟨j, k, hjk, hj, hk⟩
    exact ⟨0, j + 1, k + 1, by omega, by omega, rfl, by simpa using hj,
      by simpa using hk⟩

lemma rleChanges_true_ge_one (p : List Bool) :
    1 ≤ rleChanges (true :: (p ++ [true])) ↔ false ∈ p := by
  induction p with
  | nil => simp [rleChanges]
  | cons x p ih =>
    cases x with
    | false =>
      rw [List.cons_append, rleChanges_tf]
      constructor
      · intro _; exact List.mem_cons_self false p
      · intro _; omega
    | true =>
      rw [List.cons_append, rleChanges_tt, ih]
      simp

lemma rleChanges_false_ge_two (p : List Bool) :
    2 ≤ rleChanges (false :: (p ++ [true])) ↔
      (∃ j k, j < k ∧ p.get? j = some true ∧ p.get? k = some false) := by
  induction p with
  | nil =>
    constructor
    · intro h
      rw [show (([] : List Bool) ++ [true]) = [true] from rfl, rleChanges_ft] at h
      simp [rleChanges] at h
    · rintro ⟨j, k, hjk, hj, _⟩
      cases j <;> simp at hj
  | cons x p ih =>
    cases x with
    | false =>
      rw [List.cons_append, rleChanges_ff, ih]
      exact (qtf_cons_false p).symm
    | true =>
      rw [List.cons_append, rleChanges_ft, qtf_cons_true]
      have h1 := rleChanges_true_ge_one p
      constructor
      · intro h; exact h1.mp (by omega)
      · intro h; have := h1.mpr h; omega

lemma rleChanges_true_ge_three (p : List Bool) :
    3 ≤ rleChanges (true :: (p ++ [true])) ↔ HasInternalNull p := by
  induction p with
  | nil =>
    constructor
    · intro h
      rw [show (([] : List Bool) ++ [true]) = [true] from rfl, rleChanges_tt] at h
      simp [rleChanges] at h
    · rintro ⟨i, j, k, hij, hjk, hi, hj, hk⟩
      cases i <;> simp at hi
  | cons x p ih =>
    cases x with
    | false =>
      rw [List.cons_append, rleChanges_tf, internal_cons_false]
      have h2 := rleChanges_false_ge_two p
      constructor
      · intro h; exact h2.mp (by omega)
      · intro h; have := h2.mpr h; omega
    | true =>
      rw [List.cons_append, rleChanges_tt, ih]
      exact (internal_cons_true p).symm

/-- C5 counterexample: the series value-then-null has a null outside the
leading run (a trailing null), which the claim says must raise; but the
null screen of detect_anoms.py lines 41-45 appends a sentinel NaN that
merges with the trailing run, leaving only 3 runs, so no error is raised
(the trailing null is then silently dropped by `dropna`). -/
theorem null_screen_tolerates_trailing_null :
    hasNonLeadingNull [false, true] = true ∧
    nullCheckRaises [false, true] = false := by
  exact ⟨rfl, rfl⟩

/-- C5 amended: the null screen of detect_anoms raises exactly when the
isnull pattern contains an internal null, one with a non-null value both
before and after it; leading and trailing null runs are both tolerated
and then stripped by `dropna`. -/
theorem null_screen_raises_iff_internal_null (pattern : List Bool) :
    nullCheckRaises pattern = true ↔ HasInternalNull pattern := by
  unfold nullCheckRaises
  rw [decide_eq_true_iff]
  rw [show ((true :: pattern ++ [true]) : List Bool) =
    true :: (pattern ++ [true]) from rfl]
  rw [rleLen_cons_eq true (pattern ++ [true])]
  have h := rleChanges_true_ge_three pattern
  constructor
  · intro h3; exact h.mp (by omega)
  · intro hin; have := h.mpr hin; omega

/-- Centered rolling mean over positions 0..n-1, as
`pd.rolling_mean(s, window=w, min_periods=w, center=True)` in
decompose.py line 115: the window at position i covers
[i - w/2, i + (w-1)/2] (for an even window the extra observation lies in
the past) and the result is NaN where the full window does not fit. -/
def rollingMeanC (n w : ℕ) (x : ℕ → ℚ) : ℕ → Option ℚ := fun i =>
  if w / 2 ≤ i ∧ i + (w - 1) / 2 < n ∧ 0 < w then
    some ((((List.range w).map (fun j => x (i - w / 2 + j))).sum) / (w : ℚ))
  else none

/-- Elementwise combination-inverse of decompose.py (division for the
multiplicative model, subtraction for the additive model), NaN-propagating. -/
def combineInv (mult : Bool) (a b : ℕ → Option ℚ) : ℕ → Option ℚ := fun i =>
  match a i, b i with
  | some x, some y => some (if mult then x / y else x - y)
  | _, _ => none

/-- Positions (among 0..n-1) carrying a given phase label, in order: the
rows selected by `result[result['period'] == u]` in decompose.py line 192. -/
def phasePositions (n : ℕ) (phase : ℕ → ℕ) (u : ℕ) : List ℕ :=
  (List.range n).filter (fun i => phase i = u)

/-- `(x * weights).sum` of decompose.py lines 206, 217 and 222: the dot
product of a window of values with a weight row. -/
def dotWeights (vals w : List ℚ) : ℚ :=
  ((vals.zip w).map (fun p => p.1 * p.2)).sum

/-- The seasonal smoothing tables of decompose.py lines 12-32, transcribed
as exact rationals (`s3x9`'s decimal entries become fractions over 1000).
These are end-weights; they are applied reversed at the start of a series. -/
def s3x3 : List (List ℚ) :=
  [[5/27, 11/27, 11/27],
   [3/27, 7/27, 10/27, 7/27],
   [1/9, 2/9, 3/9, 2/9, 1/9]]

def s3x5 : List (List ℚ) :=
  [[9/60, 17/60, 17/60, 17/60],
   [4/60, 11/60, 15/60, 15/60, 15/60],
   [4/60, 8/60, 13/60, 13/60, 13/60, 9/60],
   [1/15, 2/15, 3/15, 3/15, 3/15, 2/15, 1/15]]

def s3x9 : List (List ℚ) :=
  [[51/1000, 112/1000, 173/1000, 197/1000, 221/1000, 246/1000],
   [28/1000, 92/1000, 144/1000, 160/1000, 176/1000, 192/1000, 208/1000],
   [32/1000, 79/1000, 123/1000, 133/1000, 143/1000, 154/1000, 163/1000,
    173/1000],
   [34/1000, 75/1000, 113/1000, 117/1000, 123/1000, 128/1000, 132/1000,
    137/1000, 141/1000],
   [34/1000, 73/1000, 111/1000, 113/1000, 114/1000, 116/1000, 117/1000,
    118/1000, 120/1000, 84/1000],
   [1/27, 2/27, 3/27, 3/27, 3/27, 3/27, 3/27, 3/27, 3/27, 2/27, 1/27]]

/-- The smoothed value of one phase subseries at in-phase position j
(decompose.py lines 205-224): the centered weighted rolling window of span
2*kS-1 where it fits, the reversed end-weight rows at the start, and the
end-weight rows as-is at the end. -/
def smoothOne (smoother : List (List ℚ)) (vals : List ℚ) (j : ℕ) : ℚ :=
  let kS := smoother.length
  let m := vals.length
  if j < kS - 1 then
    dotWeights (vals.take (j + kS)) (smoother.getD j []).reverse
  else if j + kS ≤ m then
    dotWeights ((vals.drop (j + 1 - kS)).take (2 * kS - 1))
      (smoother.getD (kS - 1) [])
  else
    dotWeights (vals.drop (j + 1 - kS)) (smoother.getD (m - 1 - j) [])

/-- `_smoothSeasonalComponent` of decompose.py lines 176-230 as a column
transform: for each position, group the column by phase label; under
`constantSeasonal` every position of the phase receives the phase mean of
the defined values (NaN when none are defined); otherwise the NaN entries
are dropped and the remaining in-phase values are smoothed with the chosen
kernel (`smoothOne`), falling back to the phase mean when the series is too
short for the kernel, and positions that were NaN in the input column stay
NaN. -/
def smoothSeasonalComponent (n : ℕ) (phase : ℕ → ℕ) (constantSeasonal : Bool)
    (smoother : List (List ℚ)) (col : ℕ → Option ℚ) : ℕ → Option ℚ := fun i =>
  let positions := phasePositions n phase (phase i)
  if constantSeasonal then
    let vals := positions.filterMap col
    if vals.length = 0 then none else some (vals.sum / (vals.length : ℚ))
  else
    let dropped := positions.filterMap (fun p => (col p).map (fun v => (p, v)))
    let vals := dropped.map (fun q => q.2)
    match dropped.findIdx? (fun q => q.1 = i) with
    | none => none
    | some j =>
      if vals.length < 2 * smoother.length - 1 then
        some (vals.sum / (vals.length : ℚ))
      else
        some (smoothOne smoother vals j)

/-- `_extendSeries` of decompose.py lines 234-265: when the column starts
(ends) with NaN, back-cast (forward-cast) by copying the values of the
first (last) `periods` defined entries, matched by phase label, into the
undefined head (tail). -/
def extendSeries (n periods : ℕ) (phase : ℕ → ℕ) (col : ℕ → Option ℚ) :
    ℕ → Option ℚ :=
  let nonNull := (List.range n).filterMap
    (fun p => (col p).map (fun v => (p, v)))
  let firstPos := (nonNull.headD (0, 0)).1
  let lastPos := (nonNull.getLastD (0, 0)).1
  fun i =>
    if (col 0).isNone ∧ i < firstPos then
      ((nonNull.take periods).find? (fun q => phase q.1 = phase i)).map
        (fun q => q.2)
    else if (col (n - 1)).isNone ∧ lastPos < i ∧ i < n then
      (((nonNull.reverse.take periods).reverse).find?
        (fun q => phase q.1 = phase i)).map (fun q => q.2)
    else col i

/-- The columns of the decomposition frame returned by Decompose
(decompose.py lines 90-172), one function per column, position-indexed,
with `none` for NaN. -/
structure DecompResult where
  n : ℕ
  Original : ℕ → Option ℚ
  periodOf : ℕ → ℕ
  trendEst1 : ℕ → Option ℚ
  seasonalEst1 : ℕ → Option ℚ
  seasonalEst2 : ℕ → Option ℚ
  seasonalEst3 : ℕ → Option ℚ
  seasAdjEst1 : ℕ → Option ℚ
  trendEst2 : ℕ → Option ℚ
  seasonalEst4 : ℕ → Option ℚ
  Seasonal : ℕ → Option ℚ
  SeasAdj : ℕ → Option ℚ
  Trend : ℕ → Option ℚ
  Irregular : ℕ → Option ℚ
deriving Inhabited

/-- Shallow embedding of `Decompose` (decompose.py lines 36-172), for the
integer `periods` argument (phase label = position mod periods, line 101).
`henderson` stands for `Henderson.Henderson` (series, odd span h), whose
module is not part of the repository sources.  The input `s` is a list of
rationals, so the source's checks for a non-Series argument, a
non-monotonic or duplicate index and null or non-finite values cannot fire
in the model; the period and length checks are the source's lines 102-105.
The eleven pipeline steps follow lines 114-172. -/
def Decompose (henderson : (ℕ → Option ℚ) → ℕ → (ℕ → Option ℚ))
    (s : List ℚ) (periods : ℕ) (mult : Bool) (constantSeasonal : Bool)
    (smoother : List (List ℚ)) : Except String DecompResult :=
  if periods < 2 then .error "The periods parameter should be at least 2"
  else if s.length < periods * 2 + 1 then
    .error "The s parameter is not long enough to decompose"
  else
    let n := s.length
    let phase := fun i => i % periods
    let orig : ℕ → Option ℚ := fun i => s.get? i
    let origT : ℕ → ℚ := fun i => s.getD i 0
    let h0 := max periods 7
    let h := if h0 % 2 = 0 then h0 + 1 else h0
    let t1 := rollingMeanC n (periods + 1) origT
    let s1 := combineInv mult orig t1
    let s2 := smoothSeasonalComponent n phase constantSeasonal smoother s1
    let s3 := if (List.range n).any (fun i => (s2 i).isNone) then
        extendSeries n periods phase s2
      else s2
    let sa1 := combineInv mult orig s3
    let t2 := henderson sa1 h
    let s4 := combineInv mult orig t2
    let seasonal := smoothSeasonalComponent n phase constantSeasonal smoother s4
    let seasAdj := combineInv mult orig seasonal
    let trend := henderson seasAdj h
    let irregular := combineInv mult seasAdj trend
    .ok ⟨n, orig, phase, t1, s1, s2, s3, sa1, t2, s4, seasonal, seasAdj,
      trend, irregular⟩

/-- Claim-side combination operator (C2): product for the multiplicative
model, sum for the additive model. -/
def recombine (mult : Bool) (t sv irr : ℚ) : ℚ :=
  if mult then t * sv * irr else t + sv + irr

/-- Project the result out of a successful Decompose call. -/
def getOk (e : Except String DecompResult) : DecompResult :=
  match e with
  | .ok r => r
  | .error _ => default

lemma combineInv_eq_some {mult : Bool} {a b : ℕ → Option ℚ} {i : ℕ} {x : ℚ}
    (h : combineInv mult a b i = some x) :
    ∃ xa xb, a i = some xa ∧ b i = some xb ∧
      x = (if mult then xa / xb else xa - xb) := by
  unfold combineInv at h
  cases ha : a i with
  | none => rw [ha] at h; exact Option.noConfusion h
  | some xa =>
    cases hb : b i with
    | none => rw [ha, hb] at h; exact Option.noConfusion h
    | some xb =>
      rw [ha, hb] at h
      simp only [Option.some.injEq] at h
      exact ⟨xa, xb, rfl, rfl, h.symm⟩

/-- C2: whenever Decompose succeeds, recombining Trend, Seasonal and
Irregular with the model's combination operator reproduces the Original
column at every index where all three components are defined (for the
multiplicative model definedness includes the divisors Seasonal and Trend
being nonzero there, since a zero divisor yields a non-finite float in the
source rather than a defined component).  This holds for every choice of
the Henderson smoother. -/
theorem decompose_reconstructs
    (henderson : (ℕ → Option ℚ) → ℕ → (ℕ → Option ℚ)) (s : List ℚ)
    (periods : ℕ) (mult constantSeasonal : Bool)
    (smoother : List (List ℚ)) (r : DecompResult) (i : ℕ) (tv sv irr : ℚ)
    (hr : Decompose henderson s periods mult constantSeasonal smoother =
      .ok r)
    (ht : r.Trend i = some tv) (hs : r.Seasonal i = some sv)
    (hi : r.Irregular i = some irr)
    (hsv : mult = true → sv ≠ 0) (htv : mult = true → tv ≠ 0) :
    r.Original i = some (recombine mult tv sv irr) := by
  unfold Decompose at hr
  split at hr
  · exact Except.noConfusion hr
  · split at hr
    · exact Except.noConfusion hr
    · rw [Except.ok.injEq] at hr
      subst hr
      dsimp only at ht hs hi ⊢
      obtain ⟨sa, tv2, hsa, htv2, hirr⟩ := combineInv_eq_some hi
      rw [ht] at htv2
      rw [Option.some.injEq] at htv2
      subst htv2
      obtain ⟨ov, sv2, ho, hsv2, hsaeq⟩ := combineInv_eq_some hsa
      rw [hs] at hsv2
      rw [Option.some.injEq] at hsv2
      subst hsv2
      rw [ho, Option.some.injEq]
      cases mult with
      | false =>
        subst hsaeq
        subst hirr
        simp only [Bool.false_eq_true, if_false, recombine]
        ring
      | true =>
        have hsv' := hsv rfl
        have htv' := htv rfl
        subst hsaeq
        subst hirr
        simp only [if_pos rfl, recombine]
        field_simp
        ring

lemma combineInv_app (mult : Bool) (a b : ℕ → Option ℚ) (i : ℕ) :
    combineInv mult a b i =
      match a i, b i with
      | some x, some y => some (if mult then x / y else x - y)
      | _, _ => none := rfl

/-- C2 witness: the additive decomposition of the constant series
1,1,1,1,1 with two phases, a constant seasonal, and a constant Henderson
stand-in has Trend 1, Seasonal 0 and Irregular 0 at position 0, which
recombine to the original value 1. -/
theorem decompose_reconstructs_witness :
    (getOk (Decompose (fun _ _ => fun _ => some 1) [1, 1, 1, 1, 1] 2 false
        true s3x5)).Original 0 = some (recombine false 1 0 0) := by
  have hs0 : smoothSeasonalComponent 5 (fun j => j % 2) true s3x5
      (combineInv false (fun j => ([1, 1, 1, 1, 1] : List ℚ).get? j)
        (fun _ => some 1)) 0 = some 0 := by
    norm_num [smoothSeasonalComponent, phasePositions, combineInv,
      List.filterMap_cons, List.range, List.range.loop]
  have hA : combineInv false (fun j => ([1, 1, 1, 1, 1] : List ℚ).get? j)
      (smoothSeasonalComponent 5 (fun j => j % 2) true s3x5
        (combineInv false (fun j => ([1, 1, 1, 1, 1] : List ℚ).get? j)
          (fun _ => some 1))) 0 = some 1 := by
    rw [combineInv_app, hs0]
    norm_num
  refine decompose_reconstructs (fun _ _ => fun _ => some 1) [1, 1, 1, 1, 1]
    2 false true s3x5
    (getOk (Decompose (fun _ _ => fun _ => some 1) [1, 1, 1, 1, 1] 2 false
      true s3x5)) 0 1 0 0 rfl ?_ ?_ ?_ (fun h => nomatch h)
    (fun h => nomatch h)
  · rfl
  · show smoothSeasonalComponent 5 (fun j => j % 2) true s3x5
      (combineInv false (fun j => ([1, 1, 1, 1, 1] : List ℚ).get? j)
        (fun _ => some 1)) 0 = some 0
    exact hs0
  · show combineInv false
      (combineInv false (fun j => ([1, 1, 1, 1, 1] : List ℚ).get? j)
        (smoothSeasonalComponent 5 (fun j => j % 2) true s3x5
          (combineInv false (fun j => ([1, 1, 1, 1, 1] : List ℚ).get? j)
            (fun _ => some 1))))
      (fun _ => some 1) 0 = some 0
    rw [combineInv_app, hA]
    norm_num
